import Mathlib

/-!
Verification of the asynchronous job-tracking server of the Docs-Extractor
repository (the Oak router in the server source file: routes POST /api/extract,
GET /api/job/:jobId, GET /api/docs) against its natural-language specification.

The server keeps a global mutable map
  jobs : Map from string to record with fields status, optional result, optional error
and three handlers.  We embed the map as an association list with the JS Map
semantics (set replaces the value of an existing key in place, otherwise appends;
get returns the first binding), the handlers as pure functions of the store, and
the interleaving of submissions with background-task completions as a small
transition system.  The result payload produced by the external agent is opaque
to the server, so it is a type parameter ρ throughout.
-/

/-- Job status strings written by the server: the only values ever stored are
the literals processing, completed and failed. -/
inductive JobStatus where
  | processing
  | completed
  | failed
deriving DecidableEq

/-- One record of the jobs map: in the source,
a value of type with fields status (string), result (optional, unknown) and
error (optional, string).  Absent optional fields are modelled as none. -/
structure Job (ρ : Type) where
  status : JobStatus
  result : Option ρ
  error : Option String
deriving DecidableEq

/-- The jobs map: a JS Map from job identifier strings to job records,
embedded as an association list in insertion order. -/
abbrev JobStore (ρ : Type) := List (String × Job ρ)

/-- JS Map.prototype.get: the value bound to the first (hence only) matching
key, if any. -/
def JobStore.get {ρ : Type} : JobStore ρ → String → Option (Job ρ)
  | [], _ => none
  | p :: rest, id => if p.1 = id then some p.2 else JobStore.get rest id

/-- JS Map.prototype.set: replace the value of an existing key in place,
otherwise append the new binding at the end. -/
def JobStore.set {ρ : Type} : JobStore ρ → String → Job ρ → JobStore ρ
  | [], id, j => [(id, j)]
  | p :: rest, id, j => if p.1 = id then (id, j) :: rest else p :: JobStore.set rest id j

/-- The record every job starts in: status processing, no result, no error
(the source writes a record with only the status field). -/
def procJob {ρ : Type} : Job ρ := ⟨JobStatus.processing, none, none⟩

/-- JS falsiness of an optional string field of the request body:
undefined or null destructure to an absent value, and the empty string is the
only falsy string.  The guard in the source is the negation test on docsUrl
and on extractionType. -/
def falsy : Option String → Bool
  | none => true
  | some s => s == ""

/-- The submission request body, after JSON parsing: the handler destructures
the two fields docsUrl and extractionType. -/
structure ExtractRequest where
  docsUrl : Option String
  extractionType : Option String
deriving DecidableEq

/-- Response of POST /api/extract: either HTTP 400 with an error message, or
the body carrying the fresh job identifier and the literal status string. -/
inductive ExtractResponse where
  | badRequest (message : String)
  | accepted (jobId : String) (status : String)
deriving DecidableEq

/-- Thrown JS values caught by the background task: either an Error object
(whose message field is used) or any other value (whose string conversion is
used).  The catch clause in the source distinguishes exactly these two cases. -/
inductive JsError where
  | errorObj (message : String)
  | nonError (stringRepr : String)
deriving DecidableEq

/-- The string the catch clause stores: the message of an Error object, or
the string conversion of any other thrown value. -/
def JsError.toMessage : JsError → String
  | JsError.errorObj m => m
  | JsError.nonError s => s

/-- The jobs.set call of the success branch of the background task: overwrite
the record with status completed and the result attached.  The source performs
this unconditionally; there is no transition guard. -/
def markCompleted {ρ : Type} (store : JobStore ρ) (jobId : String) (result : ρ) : JobStore ρ :=
  JobStore.set store jobId ⟨JobStatus.completed, some result, none⟩

/-- The jobs.set call of the catch branch of the background task: overwrite
the record with status failed and the stringified error attached.  The source
performs this unconditionally; there is no transition guard. -/
def markFailed {ρ : Type} (store : JobStore ρ) (jobId : String) (message : String) : JobStore ρ :=
  JobStore.set store jobId ⟨JobStatus.failed, none, some message⟩

/-- The jobs.set call that creates the job in POST /api/extract: set the fresh
identifier to a processing record.  The source performs this unconditionally;
there is no duplicate-identifier check. -/
def create {ρ : Type} (store : JobStore ρ) (jobId : String) : JobStore ρ :=
  JobStore.set store jobId procJob

/-- The whole background task launched by POST /api/extract, as a function of
the outcome of the external operation (agent creation plus extraction): the try
branch marks the job completed with the result, the catch branch marks it
failed with the stringified error.  The cleanup call that follows the success
write has an empty body in the source and cannot throw, so the task performs
exactly one terminal write. -/
def backgroundTask {ρ : Type} (store : JobStore ρ) (jobId : String)
    (outcome : Except JsError ρ) : JobStore ρ :=
  match outcome with
  | Except.ok result => markCompleted store jobId result
  | Except.error e => markFailed store jobId e.toMessage

/-- The synchronous part of the POST /api/extract handler: validate the two
required fields (falsy test, matching the source guard), and on success create
the processing record under the freshly generated identifier and answer with
the identifier and the status literal.  The background task is launched
detached and its outcome does not occur in this function: the response is
computed before the external operation finishes. -/
def postApiExtract {ρ : Type} (store : JobStore ρ) (req : ExtractRequest)
    (jobId : String) : ExtractResponse × JobStore ρ :=
  if falsy req.docsUrl || falsy req.extractionType then
    (ExtractResponse.badRequest "Missing required fields: docsUrl, extractionType", store)
  else
    (ExtractResponse.accepted jobId "processing", create store jobId)

/-- Response of GET /api/job/:jobId: HTTP 404 with the error message, or the
job record itself as the body. -/
inductive JobResponse (ρ : Type) where
  | notFound (message : String)
  | ok (job : Job ρ)
deriving DecidableEq

/-- The GET /api/job/:jobId handler: look the identifier up in the jobs map;
404 when absent, otherwise the current record. -/
def getApiJob {ρ : Type} (store : JobStore ρ) (jobId : String) : JobResponse ρ :=
  match JobStore.get store jobId with
  | none => JobResponse.notFound "Job not found"
  | some j => JobResponse.ok j

/-- One directory entry as Deno.readDir yields it; only the name and the
regular-file flag are consulted by the handler. -/
structure DirEntry where
  name : String
  isFile : Bool
deriving DecidableEq

/-- One element of the docs list returned by GET /api/docs. -/
structure DocRef where
  name : String
  path : String
deriving DecidableEq

/-- The GET /api/docs handler, as a function of the outcome of reading the
generated-docs directory: on success the regular files whose names end in .md,
each with its path under the directory; if the read fails anywhere the catch
clause answers with the empty list (and the response status stays 200 in both
cases). -/
def getApiDocs (readDirResult : Except String (List DirEntry)) : List DocRef :=
  match readDirResult with
  | Except.error _ => []
  | Except.ok entries =>
    (entries.filter (fun e => e.isFile && e.name.endsWith ".md")).map
      (fun e => ⟨e.name, "./generated-docs/" ++ e.name⟩)

/-- Well-formedness of a job record, as the spec states it: both payload
fields absent while processing; exactly the result present when completed;
exactly the error present when failed. -/
def wellFormed {ρ : Type} (j : Job ρ) : Bool :=
  match j.status with
  | JobStatus.processing => j.result.isNone && j.error.isNone
  | JobStatus.completed => j.result.isSome && j.error.isNone
  | JobStatus.failed => j.result.isNone && j.error.isSome

/-- State of the server between event-loop turns: the jobs map together with
the set of identifiers whose detached background task has not yet run its
terminal write. -/
structure SysState (ρ : Type) where
  store : JobStore ρ
  pending : List String
deriving DecidableEq

/-- The server starts with an empty jobs map and no background task. -/
def initState {ρ : Type} : SysState ρ := ⟨[], []⟩

/-- Atomic state changes of the server.  A valid submission runs the handler
and registers the detached task; the freshness hypothesis embeds the
identifier-generation guarantee of crypto.randomUUID on which the source
relies.  An invalid submission leaves the map untouched.  A background task
finishes at most once, with some outcome of the external operation.  Status
queries and the docs routes read nothing mutable besides the map and change
no state, so they contribute no step. -/
inductive Step {ρ : Type} : SysState ρ → SysState ρ → Prop where
  | submitValid (s : SysState ρ) (req : ExtractRequest) (jobId : String)
      (hok : (falsy req.docsUrl || falsy req.extractionType) = false)
      (hfresh : JobStore.get s.store jobId = none) :
      Step s ⟨(postApiExtract s.store req jobId).2, jobId :: s.pending⟩
  | submitInvalid (s : SysState ρ) (req : ExtractRequest) (jobId : String)
      (hbad : (falsy req.docsUrl || falsy req.extractionType) = true) :
      Step s ⟨(postApiExtract s.store req jobId).2, s.pending⟩
  | finish (s : SysState ρ) (jobId : String) (outcome : Except JsError ρ)
      (hmem : jobId ∈ s.pending) :
      Step s ⟨backgroundTask s.store jobId outcome, s.pending.erase jobId⟩

/-- States the server can reach from startup. -/
def Reachable {ρ : Type} (s : SysState ρ) : Prop :=
  Relation.ReflTransGen Step initState s

/-- The inductive invariant: every pending identifier is mapped to the fresh
processing record, no identifier is pending twice, and every stored record is
well formed. -/
def SysInv {ρ : Type} (s : SysState ρ) : Prop :=
  s.pending.Nodup ∧
  (∀ id, id ∈ s.pending → JobStore.get s.store id = some procJob) ∧
  (∀ q, q ∈ s.store → wellFormed q.2 = true)

theorem get_set_self {ρ : Type} (s : JobStore ρ) (id : String) (j : Job ρ) :
    JobStore.get (JobStore.set s id j) id = some j := by
  induction s with
  | nil => simp [JobStore.set, JobStore.get]
  | cons p rest ih =>
    by_cases h : p.1 = id
    · simp [JobStore.set, h, JobStore.get]
    · simp [JobStore.set, h, JobStore.get, ih]

theorem get_set_ne {ρ : Type} (s : JobStore ρ) (id id' : String) (j : Job ρ)
    (h : id' ≠ id) : JobStore.get (JobStore.set s id j) id' = JobStore.get s id' := by
  induction s with
  | nil =>
    simp [JobStore.set, JobStore.get, Ne.symm h]
  | cons p rest ih =>
    by_cases hp : p.1 = id
    · have hp' : ¬ p.1 = id' := fun hh => h (hh ▸ hp ▸ rfl)
      simp [JobStore.set, hp, JobStore.get, fun hh : id = id' => h hh.symm, hp ▸ hp']
    · simp only [JobStore.set, hp, if_false, JobStore.get]
      by_cases hq : p.1 = id'
      · simp [hq]
      · simp [hq, ih]

theorem mem_set {ρ : Type} (s : JobStore ρ) (id : String) (j : Job ρ)
    (q : String × Job ρ) (h : q ∈ JobStore.set s id j) : q ∈ s ∨ q = (id, j) := by
  induction s with
  | nil =>
    simp [JobStore.set] at h
    exact Or.inr h
  | cons p rest ih =>
    by_cases hp : p.1 = id
    · simp [JobStore.set, hp] at h
      rcases h with h | h
      · exact Or.inr h
      · exact Or.inl (List.mem_cons_of_mem _ h)
    · simp [JobStore.set, hp] at h
      rcases h with h | h
      · exact Or.inl (h ▸ List.mem_cons_self _ _)
      · rcases ih h with h' | h'
        · exact Or.inl (List.mem_cons_of_mem _ h')
        · exact Or.inr h'

theorem get_mem {ρ : Type} (s : JobStore ρ) (id : String) (j : Job ρ)
    (h : JobStore.get s id = some j) : (id, j) ∈ s := by
  induction s with
  | nil => simp [JobStore.get] at h
  | cons p rest ih =>
    by_cases hp : p.1 = id
    · simp [JobStore.get, hp] at h
      have hpq : p = (id, j) := by
        obtain ⟨a, b⟩ := p
        simp only at hp h
        rw [hp, h]
      rw [← hpq]
      exact List.mem_cons_self p rest
    · simp [JobStore.get, hp] at h
      exact List.mem_cons_of_mem _ (ih h)

theorem getApiJob_ok_iff {ρ : Type} (store : JobStore ρ) (id : String) (j : Job ρ) :
    getApiJob store id = JobResponse.ok j ↔ JobStore.get store id = some j := by
  cases h : JobStore.get store id <;> simp [getApiJob, h]

theorem postApiExtract_valid {ρ : Type} (store : JobStore ρ) (req : ExtractRequest)
    (jobId : String) (h : (falsy req.docsUrl || falsy req.extractionType) = false) :
    postApiExtract store req jobId =
      (ExtractResponse.accepted jobId "processing", JobStore.set store jobId procJob) := by
  simp [postApiExtract, h, create]

theorem postApiExtract_invalid {ρ : Type} (store : JobStore ρ) (req : ExtractRequest)
    (jobId : String) (h : (falsy req.docsUrl || falsy req.extractionType) = true) :
    postApiExtract store req jobId =
      (ExtractResponse.badRequest "Missing required fields: docsUrl, extractionType", store) := by
  simp [postApiExtract, h]

theorem backgroundTask_eq_set {ρ : Type} (store : JobStore ρ) (jobId : String)
    (outcome : Except JsError ρ) :
    ∃ j : Job ρ, backgroundTask store jobId outcome = JobStore.set store jobId j ∧
      wellFormed j = true ∧ j.status ≠ JobStatus.processing := by
  cases outcome with
  | ok r =>
    exact ⟨⟨JobStatus.completed, some r, none⟩, rfl, rfl, by simp⟩
  | error e =>
    exact ⟨⟨JobStatus.failed, none, some e.toMessage⟩, rfl, rfl, by simp⟩

theorem sysInv_init {ρ : Type} : SysInv (initState : SysState ρ) := by
  refine ⟨List.nodup_nil, ?_, ?_⟩ <;> intro x hx <;> simp [initState] at hx

theorem sysInv_step {ρ : Type} {s s' : SysState ρ} (h : SysInv s) (hst : Step s s') :
    SysInv s' := by
  obtain ⟨hnd, hpend, hwf⟩ := h
  cases hst with
  | submitValid req jobId hok hfresh =>
    rw [postApiExtract_valid _ _ _ hok]
    have hnotp : jobId ∉ s.pending := fun hmem => by
      rw [hpend jobId hmem] at hfresh; exact Option.noConfusion hfresh
    refine ⟨List.nodup_cons.mpr ⟨hnotp, hnd⟩, ?_, ?_⟩
    · intro id hid
      rcases List.mem_cons.mp hid with hid | hid
      · subst hid; exact get_set_self _ _ _
      · have hne : id ≠ jobId := fun hEq => hnotp (hEq ▸ hid)
        rw [get_set_ne _ _ _ _ hne]; exact hpend id hid
    · intro q hq
      rcases mem_set _ _ _ _ hq with hq | hq
      · exact hwf q hq
      · subst hq; rfl
  | submitInvalid req jobId hbad =>
    rw [postApiExtract_invalid _ _ _ hbad]
    exact ⟨hnd, hpend, hwf⟩
  | finish jobId outcome hmem =>
    obtain ⟨j, hEq, hjwf, _⟩ := backgroundTask_eq_set s.store jobId outcome
    rw [hEq]
    refine ⟨hnd.erase jobId, ?_, ?_⟩
    · intro id hid
      have hid' : id ≠ jobId ∧ id ∈ s.pending := (List.Nodup.mem_erase_iff hnd).mp hid
      rw [get_set_ne _ _ _ _ hid'.1]; exact hpend id hid'.2
    · intro q hq
      rcases mem_set _ _ _ _ hq with hq | hq
      · exact hwf q hq
      · subst hq; exact hjwf

theorem sysInv_reachable {ρ : Type} {s : SysState ρ} (h : Reachable s) : SysInv s := by
  induction h with
  | refl => exact sysInv_init
  | tail _ hstep ih => exact sysInv_step ih hstep

theorem terminal_stable_step {ρ : Type} {s s' : SysState ρ} (hinv : SysInv s)
    (hst : Step s s') (id : String) (j : Job ρ)
    (hget : JobStore.get s.store id = some j) (hterm : j.status ≠ JobStatus.processing) :
    JobStore.get s'.store id = some j := by
  cases hst with
  | submitValid req jobId hok hfresh =>
    show JobStore.get (postApiExtract s.store req jobId).2 id = some j
    rw [postApiExtract_valid _ _ _ hok]
    have hne : id ≠ jobId := fun hEq => by
      rw [hEq, hfresh] at hget; exact Option.noConfusion hget
    rw [get_set_ne _ _ _ _ hne]; exact hget
  | submitInvalid req jobId hbad =>
    show JobStore.get (postApiExtract s.store req jobId).2 id = some j
    rw [postApiExtract_invalid _ _ _ hbad]; exact hget
  | finish jobId outcome hmem =>
    show JobStore.get (backgroundTask s.store jobId outcome) id = some j
    obtain ⟨j', hEq, _, _⟩ := backgroundTask_eq_set s.store jobId outcome
    rw [hEq]
    have hne : id ≠ jobId := fun hEq' => by
      rw [hEq', hinv.2.1 jobId hmem] at hget
      have : j = procJob := (Option.some_inj.mp hget).symm
      exact hterm (by rw [this]; rfl)
    rw [get_set_ne _ _ _ _ hne]; exact hget

/-- A valid submission request used in concrete runs. -/
def exReq : ExtractRequest := ⟨some "https://example.com", some "overview"⟩

/-- The empty submission payload: both fields absent. -/
def emptyReq : ExtractRequest := ⟨none, none⟩

/-- A submission whose docsUrl is present but the empty string. -/
def blankReq : ExtractRequest := ⟨some "", some "overview"⟩

/-- The completed record of the concrete run. -/
def doneJob : Job String := ⟨JobStatus.completed, some "# Title", none⟩

/-- Server state after a valid submission of job id1, task still pending. -/
def sProc : SysState String := ⟨[("id1", procJob)], ["id1"]⟩

/-- Server state after the background task of id1 completed with a result. -/
def sDone : SysState String := ⟨[("id1", doneJob)], []⟩

/-- Server state after a further valid submission of job id2. -/
def sNext : SysState String := ⟨[("id1", doneJob), ("id2", procJob)], ["id2"]⟩

theorem reach_sDone : Reachable sDone := by
  have h1 := Step.submitValid (initState : SysState String) exReq "id1" (by decide) (by decide)
  have e1 : (⟨(postApiExtract (initState : SysState String).store exReq "id1").2,
      "id1" :: (initState : SysState String).pending⟩ : SysState String) = sProc := by decide
  rw [e1] at h1
  have h2 := Step.finish sProc "id1" (Except.ok "# Title") (by decide)
  have e2 : (⟨backgroundTask sProc.store "id1" (Except.ok "# Title"),
      sProc.pending.erase "id1"⟩ : SysState String) = sDone := by decide
  rw [e2] at h2
  exact Relation.ReflTransGen.tail (Relation.ReflTransGen.single h1) h2

theorem steps_sDone_sNext : Relation.ReflTransGen Step sDone sNext := by
  have h3 := Step.submitValid sDone exReq "id2" (by decide) (by decide)
  have e3 : (⟨(postApiExtract sDone.store exReq "id2").2,
      "id2" :: sDone.pending⟩ : SysState String) = sNext := by decide
  rw [e3] at h3
  exact Relation.ReflTransGen.single h3

/-- Claim C1: for every valid submission (both docsUrl and extractionType
present, i.e. truthy), the POST /api/extract handler creates the job record in
status processing and answers with the fresh identifier and the status literal
processing, and an immediately-following GET /api/job query for that identifier
answers with the record whose status is processing and whose result and error
are both absent.  The handler is a function of the store and the request only:
the outcome of the external operation does not occur in it, so the response
never waits on the background work (which enters the model only through the
separate finish step of the transition system). -/
theorem submit_immediate_processing {ρ : Type} (store : JobStore ρ)
    (req : ExtractRequest) (jobId : String)
    (h1 : falsy req.docsUrl = false) (h2 : falsy req.extractionType = false) :
    (postApiExtract store req jobId).1 = ExtractResponse.accepted jobId "processing" ∧
    getApiJob (postApiExtract store req jobId).2 jobId = JobResponse.ok procJob := by
  have hok : (falsy req.docsUrl || falsy req.extractionType) = false := by
    rw [h1, h2]; rfl
  rw [postApiExtract_valid _ _ _ hok]
  exact ⟨rfl, (getApiJob_ok_iff _ _ _).mpr (get_set_self _ _ _)⟩

/-- Witness for submit_immediate_processing: the concrete valid request on the
empty store. -/
theorem submit_immediate_processing_witness :
    (postApiExtract ([] : JobStore String) exReq "id1").1 =
      ExtractResponse.accepted "id1" "processing" ∧
    getApiJob (postApiExtract ([] : JobStore String) exReq "id1").2 "id1" =
      JobResponse.ok procJob :=
  submit_immediate_processing [] exReq "id1" (by decide) (by decide)

/-- Claim C2: in every reachable server state, once a GET /api/job query
reports a terminal record (status not processing), every later state reachable
by further submissions and background completions reports the identical record
for that identifier: a job never leaves a terminal state, in particular never
returns to processing and never moves between completed and failed.  This
holds because the only writers are submissions (which, by the uniqueness of
generated identifiers, write only fresh keys) and each background task (which
writes its own key exactly once, while that key is still processing). -/
theorem terminal_status_stable {ρ : Type} (s s' : SysState ρ) (hr : Reachable s)
    (hs : Relation.ReflTransGen Step s s') (id : String) (j : Job ρ)
    (hget : getApiJob s.store id = JobResponse.ok j)
    (hterm : j.status ≠ JobStatus.processing) :
    getApiJob s'.store id = JobResponse.ok j := by
  rw [getApiJob_ok_iff] at hget ⊢
  induction hs with
  | refl => exact hget
  | tail hsteps hstep ih =>
    exact terminal_stable_step
      (sysInv_reachable (Relation.ReflTransGen.trans hr hsteps)) hstep id j ih hterm

/-- Witness for terminal_status_stable: after job id1 completed, a further
submission of job id2 leaves the status answer for id1 unchanged. -/
theorem terminal_status_stable_witness :
    getApiJob sNext.store "id1" = JobResponse.ok doneJob :=
  terminal_status_stable sDone sNext reach_sDone steps_sDone_sNext "id1" doneJob
    (by decide) (by decide)

/-- Claim C3, counterexample: the source performs the terminal writes with
unconditional jobs.set calls, so on a job that is not currently processing
neither operation fails with an InvalidTransitionError; each silently
overwrites the record.  Concretely, marking the completed job id1 failed
turns its record into a failed one, and marking a failed job completed turns
it into a completed one: terminal-to-terminal overwrites succeed, refuting the
claimed guard. -/
theorem mark_no_transition_guard_counterexample :
    markFailed ([("id1", doneJob)] : JobStore String) "id1" "late failure" =
      [("id1", ⟨JobStatus.failed, none, some "late failure"⟩)] ∧
    markCompleted ([("id1", ⟨JobStatus.failed, none, some "boom"⟩)] : JobStore String)
        "id1" "recovered" =
      [("id1", ⟨JobStatus.completed, some "recovered", none⟩)] := by
  exact ⟨by decide, by decide⟩

/-- Claim C3 as amended: markCompleted(id, result) sets the record to
completed with the result attached and markFailed(id, error) sets it to failed
with the error attached, unconditionally: when the job is currently processing
this is exactly the claimed processing-to-terminal transition, but there is no
transition guard and no InvalidTransitionError in the code; a record in any
state is silently overwritten.  (In the actual server flow each job receives
exactly one terminal write, from state processing: see the transition
system.) -/
theorem mark_terminal_unconditional {ρ : Type} (store : JobStore ρ) (jobId : String)
    (result : ρ) (message : String) :
    JobStore.get (markCompleted store jobId result) jobId =
      some ⟨JobStatus.completed, some result, none⟩ ∧
    JobStore.get (markFailed store jobId message) jobId =
      some ⟨JobStatus.failed, none, some message⟩ :=
  ⟨get_set_self _ _ _, get_set_self _ _ _⟩

/-- Claim C4: in every reachable server state, every record of the jobs map is
well formed: while processing both result and error are absent; when completed
exactly the result is present; when failed exactly the error is present. -/
theorem reachable_jobs_wellFormed {ρ : Type} (s : SysState ρ) (h : Reachable s)
    (id : String) (j : Job ρ) (hget : JobStore.get s.store id = some j) :
    wellFormed j = true :=
  (sysInv_reachable h).2.2 (id, j) (get_mem _ _ _ hget)

/-- Witness for reachable_jobs_wellFormed: the completed record of the
concrete run. -/
theorem reachable_jobs_wellFormed_witness : wellFormed doneJob = true :=
  reachable_jobs_wellFormed sDone reach_sDone "id1" doneJob (by decide)

/-- Claim C5: whatever the external operation throws, the catch clause at the
boundary of the background task converts it into the failed record carrying
the stringified message (the message field of an Error object, the string
conversion of anything else); and for every outcome whatsoever the task
terminates in a store write that leaves the job in a terminal state.  The task
is a total function into stores - it has no other way out, so no failure path
reaches a global or unhandled-error surface. -/
theorem background_failure_marks_failed {ρ : Type} (store : JobStore ρ)
    (jobId : String) (e : JsError) :
    backgroundTask store jobId (Except.error e) = markFailed store jobId e.toMessage ∧
    JobStore.get (backgroundTask store jobId (Except.error e)) jobId =
      some ⟨JobStatus.failed, none, some e.toMessage⟩ ∧
    ∀ outcome : Except JsError ρ, ∃ j : Job ρ,
      JobStore.get (backgroundTask store jobId outcome) jobId = some j ∧
        j.status ≠ JobStatus.processing := by
  refine ⟨rfl, get_set_self _ _ _, fun outcome => ?_⟩
  obtain ⟨j, hEq, _, hstat⟩ := backgroundTask_eq_set store jobId outcome
  rw [hEq]
  exact ⟨j, get_set_self _ _ _, hstat⟩

/-- Claim C6: for every submission payload in which a required field is
missing (falsy), the handler answers synchronously with the 400 validation
error naming the required fields, the jobs map is left exactly as it was (no
job is created), and in the scenario starting from the empty map a subsequent
GET /api/job query with any identifier whatsoever answers with the 404
not-found error. -/
theorem invalid_submission_rejected {ρ : Type} (store : JobStore ρ)
    (req : ExtractRequest) (jobId : String)
    (h : falsy req.docsUrl = true ∨ falsy req.extractionType = true) :
    (postApiExtract store req jobId).1 =
      ExtractResponse.badRequest "Missing required fields: docsUrl, extractionType" ∧
    (postApiExtract store req jobId).2 = store ∧
    (∀ id : String, getApiJob (postApiExtract ([] : JobStore ρ) req jobId).2 id =
      JobResponse.notFound "Job not found") := by
  have hbad : (falsy req.docsUrl || falsy req.extractionType) = true := by
    rcases h with h | h <;> simp [h]
  rw [postApiExtract_invalid _ _ _ hbad]
  refine ⟨rfl, rfl, ?_⟩
  intro id
  rw [postApiExtract_invalid _ _ _ hbad]
  rfl

/-- Witness for invalid_submission_rejected: the empty payload on the empty
store, polled afterwards with an arbitrary identifier. -/
theorem invalid_submission_rejected_witness :
    (postApiExtract ([] : JobStore String) emptyReq "id1").1 =
      ExtractResponse.badRequest "Missing required fields: docsUrl, extractionType" ∧
    (postApiExtract ([] : JobStore String) emptyReq "id1").2 = [] ∧
    getApiJob (postApiExtract ([] : JobStore String) emptyReq "id1").2 "any-id" =
      JobResponse.notFound "Job not found" := by
  obtain ⟨a, b, c⟩ := invalid_submission_rejected ([] : JobStore String) emptyReq "id1"
    (Or.inl rfl)
  exact ⟨a, b, c "any-id"⟩

/-- Claim C7: for every identifier with no record in the jobs map, the
GET /api/job handler answers with the 404 not-found error. -/
theorem unknown_job_not_found {ρ : Type} (store : JobStore ρ) (id : String)
    (h : JobStore.get store id = none) :
    getApiJob store id = JobResponse.notFound "Job not found" := by
  simp [getApiJob, h]

/-- Witness for unknown_job_not_found: a never-submitted identifier on the
empty store. -/
theorem unknown_job_not_found_witness :
    getApiJob ([] : JobStore String) "no-such-job" =
      JobResponse.notFound "Job not found" :=
  unknown_job_not_found [] "no-such-job" rfl

/-- Claim C8, counterexample: the job-creating jobs.set call performs no
duplicate-identifier check, so on a store that already holds a record for the
identifier it does not fail with a DuplicateIdError: it silently overwrites
the existing record - here even resetting a completed job back to a processing
record. -/
theorem create_no_duplicate_check_counterexample :
    create ([("id1", doneJob)] : JobStore String) "id1" = [("id1", procJob)] := by
  decide

/-- Claim C8 as amended: create(id) unconditionally sets the record for the
identifier to status processing with no result and no error; when a record
with that id already exists it is silently overwritten rather than rejected
with a DuplicateIdError - the code contains no defensive duplicate check and
uniqueness rests entirely on the identifier generator. -/
theorem create_sets_processing_record {ρ : Type} (store : JobStore ρ)
    (jobId : String) :
    JobStore.get (create store jobId) jobId = some procJob :=
  get_set_self _ _ _

/-- Claim C9: a submission in which docsUrl or extractionType is present but
equal to the empty string is rejected exactly like a missing field - the
falsy test of the source treats the empty string as missing - with the 400
validation error and no change to the jobs map. -/
theorem empty_string_field_rejected {ρ : Type} (store : JobStore ρ)
    (req : ExtractRequest) (jobId : String)
    (h : req.docsUrl = some "" ∨ req.extractionType = some "") :
    (postApiExtract store req jobId).1 =
      ExtractResponse.badRequest "Missing required fields: docsUrl, extractionType" ∧
    (postApiExtract store req jobId).2 = store := by
  have hblank : falsy (some "") = true := by decide
  have hbad : (falsy req.docsUrl || falsy req.extractionType) = true := by
    rcases h with h | h <;> rw [h, hblank] <;> simp
  rw [postApiExtract_invalid _ _ _ hbad]
  exact ⟨rfl, rfl⟩

/-- Witness for empty_string_field_rejected: a payload whose docsUrl is the
empty string while extractionType is a nonempty string. -/
theorem empty_string_field_rejected_witness :
    (postApiExtract ([] : JobStore String) blankReq "id1").1 =
      ExtractResponse.badRequest "Missing required fields: docsUrl, extractionType" ∧
    (postApiExtract ([] : JobStore String) blankReq "id1").2 = [] :=
  empty_string_field_rejected [] blankReq "id1" (Or.inl rfl)

/-- Claim C10: when reading the generated-docs directory fails, the
GET /api/docs handler answers successfully with the empty list (the catch
clause sets no error status); when the read succeeds, the answer enumerates
exactly the regular files whose names end in .md, each paired with its path
under the directory. -/
theorem docs_listing_spec (message : String) (entries : List DirEntry) :
    getApiDocs (Except.error message) = [] ∧
    ∀ d : DocRef, d ∈ getApiDocs (Except.ok entries) ↔
      ∃ e, e ∈ entries ∧ e.isFile = true ∧ e.name.endsWith ".md" = true ∧
        d = ⟨e.name, "./generated-docs/" ++ e.name⟩ := by
  refine ⟨rfl, fun d => ?_⟩
  simp only [getApiDocs, List.mem_map, List.mem_filter, Bool.and_eq_true]
  constructor
  · rintro ⟨e, ⟨he, hf, hmd⟩, hEq⟩
    exact ⟨e, he, hf, hmd, hEq.symm⟩
  · rintro ⟨e, he, hf, hmd, hEq⟩
    exact ⟨e, ⟨he, hf, hmd⟩, hEq.symm⟩
